import Mathlib

/-!
Shallow embedding of the `rule` package of dredd-go (file `rule/rule.go`):
a decision-tree rules engine with two traversal strategies (`ChainRuleType`
and `BestFirstRuleType`), a shared typed key-value store (`RuleContext`),
four optional lifecycle hooks per node, a cooperative cancellation token
(`context.Context`), and a runner (`RuleRunner`) dispatching on the strategy.

Modelling conventions:
* Go machine state that hooks can mutate (the `RuleContext` map reached
  through a shared pointer) is threaded explicitly: a hook is a pure
  function `Store C → Store C × result`.
* A Go `nil` function pointer is `Option.none`; the nil-checks in
  `eval/preExecute/execute/postExecute` become the `none` branches of
  `evalStep/execStep`.
* The Go `context.Context` is modelled by `Option Bool`: `none` is a nil
  context pointer (check skipped), `some true` a context whose `Done`
  channel is closed (signaled), `some false` an unsignaled context.
  `goContext.Err()` of a signaled context is the error `Err.canceled`.
* `RuleType` is an `Int`, as in Go, so that tags other than the two
  declared constants exist and hit the `default` switch branches.
* Go `error` values are the inductive `Err`; hook-supplied errors are
  embedded via `Err.user`.
* A possibly-nil `*BaseRule` is `Option (Rule C)`.
-/

namespace Dredd

/-- Go: `type RuleType int`. -/
abbrev RuleType := Int

/-- Go: `ChainRuleType RuleType = iota` (= 0). -/
def ChainRuleType : RuleType := 0

/-- Go: `BestFirstRuleType` (= 1). -/
def BestFirstRuleType : RuleType := 1

/-- The error values of the engine.  `chainRuleMultipleChildren` is
`ErrChainRuleMultipleChildren`, `chainRuleMultipleRules` is
`ErrChainRuleMultipleRules`, `nilRuleContext` is `ErrNilRuleContext`,
`nilRule` is `ErrNilRule`, `nilRuleAt i` is the wrapped
`fmt.Errorf("rule at index %d is nil: %w", i, ErrNilRule)`,
`invalidRuleType` is `ErrInvalidRuleType`, `canceled` is the error of a
signaled `context.Context`, and `user n` stands for an arbitrary
distinct error value returned by a caller-supplied hook. -/
inductive Err where
  | chainRuleMultipleChildren
  | chainRuleMultipleRules
  | nilRuleContext
  | nilRule
  | nilRuleAt (i : Nat)
  | invalidRuleType
  | canceled
  | user (n : Nat)
deriving DecidableEq, Repr

/-- The contents of a `RuleContext[C]`: a string-keyed map with values of
type `C`, modelled as an association list without duplicate keys reachable
through the operations below. -/
abbrev Store (C : Type) := List (String × C)

/-- Go `RuleContext.Get` (the map lookup `rc.context[key]`): `some v` is
`(v, true)`, `none` is `(zero, false)`. -/
def ctxGet {C : Type} : Store C → String → Option C
  | [], _ => none
  | (k, v) :: rest, key => if k = key then some v else ctxGet rest key

/-- Go `RuleContext.Delete`: `delete(rc.context, key)` removes every
binding of `key` (a Go map holds at most one). -/
def ctxDelete {C : Type} : Store C → String → Store C
  | [], _ => []
  | (k, v) :: rest, key =>
      if k = key then ctxDelete rest key else (k, v) :: ctxDelete rest key

/-- Go `RuleContext.Set`: the map assignment `rc.context[key] = value`
(upsert). -/
def ctxSet {C : Type} (rc : Store C) (key : String) (value : C) : Store C :=
  ctxDelete rc key ++ [(key, value)]

/-- Go `RuleContext.Exists`: the `ok` of `_, ok := rc.context[key]`. -/
def ctxExists {C : Type} (rc : Store C) (key : String) : Bool :=
  (ctxGet rc key).isSome

/-- Go `RuleContext.Get` in its two-valued form `(value, ok)`; the zero
value of `C` is `default`. -/
def ctxGetPair {C : Type} [Inhabited C] (rc : Store C) (key : String) : C × Bool :=
  match ctxGet rc key with
  | some v => (v, true)
  | none => (default, false)

/-- Go `RuleContext.MustGet`: returns the value, or panics when the key is
absent; the panic is modelled as `Except.error` carrying the panic
message. -/
def mustGet {C : Type} (rc : Store C) (key : String) : Except String C :=
  match ctxGet rc key with
  | some v => Except.ok v
  | none => Except.error ("key " ++ key ++ " not found in rule context")

/-- Go `RuleContext.Size`. -/
def ctxSize {C : Type} (rc : Store C) : Nat := rc.length

/-- Go `EvaluationResult`. -/
structure EvaluationResult where
  ShouldExecute : Bool
  Error : Option Err
deriving DecidableEq, Repr

/-- Go `ExecutionResult`. -/
structure ExecutionResult where
  Error : Option Err
deriving DecidableEq, Repr

/-- Go `BaseRule[T, C]`: strategy tag, owned children, and the four
optional hooks.  The bound store and Go context are not fields here: they
are rebound by the runner on every invocation (`SetRuleContext`,
`SetGoContext`) immediately before `fire`, so the semantics passes them
as arguments. -/
inductive Rule (C : Type) : Type where
  | mk : RuleType → List (Rule C) →
      Option (Store C → Store C × EvaluationResult) →
      Option (Store C → Store C × ExecutionResult) →
      Option (Store C → Store C × ExecutionResult) →
      Option (Store C → Store C × ExecutionResult) → Rule C

/-- The `ruleType` field. -/
def Rule.ruleType {C : Type} : Rule C → RuleType
  | .mk t _ _ _ _ _ => t

/-- The `children` field. -/
def Rule.children {C : Type} : Rule C → List (Rule C)
  | .mk _ cs _ _ _ _ => cs

/-- The `onEval` field. -/
def Rule.onEval {C : Type} : Rule C → Option (Store C → Store C × EvaluationResult)
  | .mk _ _ e _ _ _ => e

/-- The `onPreExecute` field. -/
def Rule.onPre {C : Type} : Rule C → Option (Store C → Store C × ExecutionResult)
  | .mk _ _ _ p _ _ => p

/-- The `onExecute` field. -/
def Rule.onExec {C : Type} : Rule C → Option (Store C → Store C × ExecutionResult)
  | .mk _ _ _ _ x _ => x

/-- The `onPostExecute` field. -/
def Rule.onPost {C : Type} : Rule C → Option (Store C → Store C × ExecutionResult)
  | .mk _ _ _ _ _ q => q

/-- Go `BaseRule.eval`: return `{ShouldExecute: true, Error: nil}` when
`onEval` is nil, otherwise invoke the hook. -/
def evalStep {C : Type} (hook : Option (Store C → Store C × EvaluationResult))
    (st : Store C) : Store C × EvaluationResult :=
  match hook with
  | none => (st, ⟨true, none⟩)
  | some f => f st

/-- Go `BaseRule.preExecute` / `execute` / `postExecute`: return
`{Error: nil}` when the hook is nil, otherwise invoke it. -/
def execStep {C : Type} (hook : Option (Store C → Store C × ExecutionResult))
    (st : Store C) : Store C × ExecutionResult :=
  match hook with
  | none => (st, ⟨none⟩)
  | some f => f st

mutual

/-- Go `BaseRule.fire`: the cancellation check (`select` on
`goContext.Done()`, skipped when the context pointer is nil), then the
switch on `r.ruleType`: eval, the three execution hooks, the recursion
into children via `runChildren`, the strategy-specific continuation
signal, and `ErrInvalidRuleType` on any other tag.  Returns the final
store, the `bool` continuation signal, and the `error`. -/
def fire {C : Type} (goCtx : Option Bool) (st : Store C) :
    Rule C → Store C × Bool × Option Err
  | .mk rt cs oe ope oex opo =>
    if goCtx = some true then (st, false, some Err.canceled)
    else if rt = ChainRuleType then
      match evalStep oe st with
      | (st1, er) =>
        match er.Error with
        | some e => (st1, false, some e)
        | none =>
          if er.ShouldExecute then
            match execStep ope st1 with
            | (st2, pr) =>
              match pr.Error with
              | some e => (st2, false, some e)
              | none =>
                match execStep oex st2 with
                | (st3, xr) =>
                  match xr.Error with
                  | some e => (st3, false, some e)
                  | none =>
                    match execStep opo st3 with
                    | (st4, qr) =>
                      match qr.Error with
                      | some e => (st4, false, some e)
                      | none =>
                        match runnerCore rt goCtx st4 cs with
                        | (st5, some e) => (st5, false, some e)
                        | (st5, none) => (st5, true, none)
          else (st1, true, none)
    else if rt = BestFirstRuleType then
      match evalStep oe st with
      | (st1, er) =>
        match er.Error with
        | some e => (st1, false, some e)
        | none =>
          if er.ShouldExecute then
            match execStep ope st1 with
            | (st2, pr) =>
              match pr.Error with
              | some e => (st2, false, some e)
              | none =>
                match execStep oex st2 with
                | (st3, xr) =>
                  match xr.Error with
                  | some e => (st3, false, some e)
                  | none =>
                    match execStep opo st3 with
                    | (st4, qr) =>
                      match qr.Error with
                      | some e => (st4, false, some e)
                      | none =>
                        match runnerCore rt goCtx st4 cs with
                        | (st5, some e) => (st5, false, some e)
                        | (st5, none) => (st5, false, none)
          else (st1, true, none)
    else (st, false, some Err.invalidRuleType)

/-- The strategy switch of Go `RuleRunner`, reached after the nil-context,
empty-sequence and nil-rule validations (so its argument list holds the
non-nil rules; `[]` gives the early `return nil`).  `ChainRuleType`
rejects more than one rule with `ErrChainRuleMultipleRules` and otherwise
fires the single rule, dropping its continuation signal;
`BestFirstRuleType` fires the rules in order, aborting on error and
stopping when a fire returns `continueLoop = false`; any other tag
returns `ErrInvalidRuleType`. -/
def runnerCore {C : Type} (rt : RuleType) (goCtx : Option Bool) (st : Store C) :
    List (Rule C) → Store C × Option Err
  | [] => (st, none)
  | r :: rest =>
    if rt = ChainRuleType then
      if rest.length > 0 then (st, some Err.chainRuleMultipleRules)
      else
        match fire goCtx st r with
        | (st1, _, e) => (st1, e)
    else if rt = BestFirstRuleType then
      match fire goCtx st r with
      | (st1, _, some e) => (st1, some e)
      | (st1, continueLoop, none) =>
        if continueLoop then runnerCore rt goCtx st1 rest else (st1, none)
    else (st, some Err.invalidRuleType)

end

/-- The nil-validation loop of Go `RuleRunner`
(`for i, rule := range rules`): index of the first nil rule, starting the
count at `i`. -/
def findNilIdx {C : Type} : List (Option (Rule C)) → Nat → Option Nat
  | [], _ => none
  | none :: _, i => some i
  | some _ :: rest, i => findNilIdx rest (i + 1)

/-- Go `RuleRunner[T, C](ruleType, goCtx, ruleContext, rules...)`.
`ruleContext = none` is a nil `*RuleContext[C]` and `none` entries of
`rules` are nil `*BaseRule[T, C]`; the returned store is the final state
of the store passed in (`none` exactly when none was passed).  Checks, in
source order: nil context, empty sequence, nil rules, then the strategy
switch `runnerCore`. -/
def RuleRunnerGo {C : Type} (rt : RuleType) (goCtx : Option Bool)
    (ruleContext : Option (Store C)) (rules : List (Option (Rule C))) :
    Option (Store C) × Option Err :=
  match ruleContext with
  | none => (none, some Err.nilRuleContext)
  | some st =>
    if rules.length = 0 then (some st, none)
    else
      match findNilIdx rules 0 with
      | some i => (some st, some (Err.nilRuleAt i))
      | none =>
        match runnerCore rt goCtx st (rules.filterMap id) with
        | (st1, e) => (some st1, e)

/-- Go `BaseRule.AddChildren(rules...)`: the chain-arity check first
(`r.ruleType == ChainRuleType && len(r.children)+len(rules) > 1`), then
the nil-scan returning `ErrNilRule`, then the append; the rule is
returned unchanged alongside any error. -/
def AddChildren {C : Type} (r : Rule C) (rules : List (Option (Rule C))) :
    Rule C × Option Err :=
  match r with
  | .mk rt cs oe ope oex opo =>
    if rt = ChainRuleType ∧ cs.length + rules.length > 1 then
      (Rule.mk rt cs oe ope oex opo, some Err.chainRuleMultipleChildren)
    else if rules.any Option.isNone then
      (Rule.mk rt cs oe ope oex opo, some Err.nilRule)
    else
      (Rule.mk rt (cs ++ rules.filterMap id) oe ope oex opo, none)

/-! ## Helper lemmas about the store -/

theorem ctxGet_append {C : Type} (l1 l2 : Store C) (key : String) :
    ctxGet (l1 ++ l2) key = (ctxGet l1 key).or (ctxGet l2 key) := by
  induction l1 with
  | nil => simp [ctxGet]
  | cons p rest ih =>
    obtain ⟨k, v⟩ := p
    by_cases h : k = key <;> simp [ctxGet, h, ih]

theorem ctxGet_delete_self {C : Type} (rc : Store C) (key : String) :
    ctxGet (ctxDelete rc key) key = none := by
  induction rc with
  | nil => simp [ctxDelete, ctxGet]
  | cons p rest ih =>
    obtain ⟨k, v⟩ := p
    by_cases h : k = key <;> simp [ctxDelete, ctxGet, h, ih]

theorem ctxGet_delete_other {C : Type} (rc : Store C) (key k2 : String)
    (h : k2 ≠ key) : ctxGet (ctxDelete rc key) k2 = ctxGet rc k2 := by
  induction rc with
  | nil => simp [ctxDelete]
  | cons p rest ih =>
    obtain ⟨k, v⟩ := p
    by_cases hk : k = key
    · subst hk
      simp [ctxDelete, ctxGet, Ne.symm h, ih]
    · by_cases hk2 : k = k2
      · subst hk2
        simp [ctxDelete, ctxGet, hk, ih]
      · simp [ctxDelete, ctxGet, hk, hk2, ih]

theorem ctxDelete_absent {C : Type} (rc : Store C) (key : String)
    (h : ctxGet rc key = none) : ctxDelete rc key = rc := by
  induction rc with
  | nil => simp [ctxDelete]
  | cons p rest ih =>
    obtain ⟨k, v⟩ := p
    by_cases hk : k = key
    · subst hk
      simp [ctxGet] at h
    · simp [ctxGet, hk] at h
      simp [ctxDelete, hk, ih h]

/-! ## Helper lemmas about `fire` and the runner -/

theorem fire_canceled_aux {C : Type} (st : Store C) (r : Rule C) :
    fire (some true) st r = (st, false, some Err.canceled) := by
  cases r with
  | mk rt cs oe ope oex opo => simp [fire]

theorem fire_skip_aux {C : Type} (goCtx : Option Bool) (hg : goCtx ≠ some true)
    (st st1 : Store C) (rt : RuleType) (cs : List (Rule C))
    (oe : Option (Store C → Store C × EvaluationResult))
    (ope oex opo : Option (Store C → Store C × ExecutionResult))
    (hrt : rt = ChainRuleType ∨ rt = BestFirstRuleType)
    (he : evalStep oe st = (st1, ⟨false, none⟩)) :
    fire goCtx st (.mk rt cs oe ope oex opo) = (st1, true, none) := by
  rcases hrt with h | h <;> subst h <;>
    simp [fire, hg, he, ChainRuleType, BestFirstRuleType]

theorem fire_evalErr_aux {C : Type} (goCtx : Option Bool) (hg : goCtx ≠ some true)
    (st st1 : Store C) (rt : RuleType) (cs : List (Rule C))
    (oe : Option (Store C → Store C × EvaluationResult))
    (ope oex opo : Option (Store C → Store C × ExecutionResult))
    (b : Bool) (e : Err)
    (hrt : rt = ChainRuleType ∨ rt = BestFirstRuleType)
    (he : evalStep oe st = (st1, ⟨b, some e⟩)) :
    fire goCtx st (.mk rt cs oe ope oex opo) = (st1, false, some e) := by
  rcases hrt with h | h <;> subst h <;>
    simp [fire, hg, he, ChainRuleType, BestFirstRuleType]

theorem fire_preErr_aux {C : Type} (goCtx : Option Bool) (hg : goCtx ≠ some true)
    (st st1 st2 : Store C) (rt : RuleType) (cs : List (Rule C))
    (oe : Option (Store C → Store C × EvaluationResult))
    (ope oex opo : Option (Store C → Store C × ExecutionResult)) (e : Err)
    (hrt : rt = ChainRuleType ∨ rt = BestFirstRuleType)
    (he : evalStep oe st = (st1, ⟨true, none⟩))
    (hp : execStep ope st1 = (st2, ⟨some e⟩)) :
    fire goCtx st (.mk rt cs oe ope oex opo) = (st2, false, some e) := by
  rcases hrt with h | h <;> subst h <;>
    simp [fire, hg, he, hp, ChainRuleType, BestFirstRuleType]

theorem fire_execErr_aux {C : Type} (goCtx : Option Bool) (hg : goCtx ≠ some true)
    (st st1 st2 st3 : Store C) (rt : RuleType) (cs : List (Rule C))
    (oe : Option (Store C → Store C × EvaluationResult))
    (ope oex opo : Option (Store C → Store C × ExecutionResult)) (e : Err)
    (hrt : rt = ChainRuleType ∨ rt = BestFirstRuleType)
    (he : evalStep oe st = (st1, ⟨true, none⟩))
    (hp : execStep ope st1 = (st2, ⟨none⟩))
    (hx : execStep oex st2 = (st3, ⟨some e⟩)) :
    fire goCtx st (.mk rt cs oe ope oex opo) = (st3, false, some e) := by
  rcases hrt with h | h <;> subst h <;>
    simp [fire, hg, he, hp, hx, ChainRuleType, BestFirstRuleType]

theorem fire_postErr_aux {C : Type} (goCtx : Option Bool) (hg : goCtx ≠ some true)
    (st st1 st2 st3 st4 : Store C) (rt : RuleType) (cs : List (Rule C))
    (oe : Option (Store C → Store C × EvaluationResult))
    (ope oex opo : Option (Store C → Store C × ExecutionResult)) (e : Err)
    (hrt : rt = ChainRuleType ∨ rt = BestFirstRuleType)
    (he : evalStep oe st = (st1, ⟨true, none⟩))
    (hp : execStep ope st1 = (st2, ⟨none⟩))
    (hx : execStep oex st2 = (st3, ⟨none⟩))
    (hq : execStep opo st3 = (st4, ⟨some e⟩)) :
    fire goCtx st (.mk rt cs oe ope oex opo) = (st4, false, some e) := by
  rcases hrt with h | h <;> subst h <;>
    simp [fire, hg, he, hp, hx, hq, ChainRuleType, BestFirstRuleType]

theorem fire_exec_chain_aux {C : Type} (goCtx : Option Bool)
    (hg : goCtx ≠ some true)
    (st st1 st2 st3 st4 : Store C) (cs : List (Rule C))
    (oe : Option (Store C → Store C × EvaluationResult))
    (ope oex opo : Option (Store C → Store C × ExecutionResult))
    (he : evalStep oe st = (st1, ⟨true, none⟩))
    (hp : execStep ope st1 = (st2, ⟨none⟩))
    (hx : execStep oex st2 = (st3, ⟨none⟩))
    (hq : execStep opo st3 = (st4, ⟨none⟩)) :
    fire goCtx st (.mk ChainRuleType cs oe ope oex opo) =
      ((runnerCore ChainRuleType goCtx st4 cs).1,
       (runnerCore ChainRuleType goCtx st4 cs).2.isNone,
       (runnerCore ChainRuleType goCtx st4 cs).2) := by
  cases h : runnerCore (C := C) ChainRuleType goCtx st4 cs with
  | mk a b =>
    simp only [ChainRuleType] at h
    cases b <;> simp [fire, hg, he, hp, hx, hq, ChainRuleType, h]

theorem fire_exec_bf_aux {C : Type} (goCtx : Option Bool)
    (hg : goCtx ≠ some true)
    (st st1 st2 st3 st4 : Store C) (cs : List (Rule C))
    (oe : Option (Store C → Store C × EvaluationResult))
    (ope oex opo : Option (Store C → Store C × ExecutionResult))
    (he : evalStep oe st = (st1, ⟨true, none⟩))
    (hp : execStep ope st1 = (st2, ⟨none⟩))
    (hx : execStep oex st2 = (st3, ⟨none⟩))
    (hq : execStep opo st3 = (st4, ⟨none⟩)) :
    fire goCtx st (.mk BestFirstRuleType cs oe ope oex opo) =
      ((runnerCore BestFirstRuleType goCtx st4 cs).1, false,
       (runnerCore BestFirstRuleType goCtx st4 cs).2) := by
  cases h : runnerCore (C := C) BestFirstRuleType goCtx st4 cs with
  | mk a b =>
    simp only [BestFirstRuleType] at h
    cases b <;>
      simp [fire, hg, he, hp, hx, hq, ChainRuleType, BestFirstRuleType, h]

theorem fire_invalid_aux {C : Type} (goCtx : Option Bool)
    (hg : goCtx ≠ some true) (st : Store C) (rt : RuleType)
    (cs : List (Rule C)) (oe : Option (Store C → Store C × EvaluationResult))
    (ope oex opo : Option (Store C → Store C × ExecutionResult))
    (h0 : rt ≠ ChainRuleType) (h1 : rt ≠ BestFirstRuleType) :
    fire goCtx st (.mk rt cs oe ope oex opo) = (st, false, some Err.invalidRuleType) := by
  simp [fire, hg, h0, h1]

theorem findNilIdx_map_some {C : Type} (rs : List (Rule C)) (i : Nat) :
    findNilIdx (rs.map some) i = none := by
  induction rs generalizing i with
  | nil => simp [findNilIdx]
  | cons r rest ih => simp [findNilIdx, ih]

theorem filterMap_id_map_some {C : Type} (rs : List (Rule C)) :
    (rs.map some).filterMap id = rs := by
  induction rs with
  | nil => simp
  | cons r rest ih => simp [ih]

/-- With a non-nil store and an all-non-nil, non-empty rule sequence, the
Go runner reduces to the strategy switch. -/
theorem runnerGo_cons_aux {C : Type} (rt : RuleType) (goCtx : Option Bool)
    (st : Store C) (r : Rule C) (rs : List (Rule C)) :
    RuleRunnerGo rt goCtx (some st) (some r :: rs.map some) =
      (some (runnerCore rt goCtx st (r :: rs)).1,
       (runnerCore rt goCtx st (r :: rs)).2) := by
  have h1 : findNilIdx (some r :: rs.map some) 0 = none :=
    findNilIdx_map_some (r :: rs) 0
  have h2 : (some r :: rs.map some).filterMap id = r :: rs :=
    filterMap_id_map_some (r :: rs)
  simp [RuleRunnerGo, h1, h2]

theorem runnerCore_bf_skip_aux {C : Type} (goCtx : Option Bool)
    (st st1 : Store C) (r : Rule C) (rest : List (Rule C))
    (h : fire goCtx st r = (st1, true, none)) :
    runnerCore BestFirstRuleType goCtx st (r :: rest) =
      runnerCore BestFirstRuleType goCtx st1 rest := by
  simp [runnerCore, h, ChainRuleType, BestFirstRuleType]

theorem runnerCore_bf_stop_aux {C : Type} (goCtx : Option Bool)
    (st st1 : Store C) (r : Rule C) (rest : List (Rule C))
    (h : fire goCtx st r = (st1, false, none)) :
    runnerCore BestFirstRuleType goCtx st (r :: rest) = (st1, none) := by
  simp [runnerCore, h, ChainRuleType, BestFirstRuleType]

theorem runnerCore_bf_err_aux {C : Type} (goCtx : Option Bool)
    (st st1 : Store C) (r : Rule C) (rest : List (Rule C)) (b : Bool) (e : Err)
    (h : fire goCtx st r = (st1, b, some e)) :
    runnerCore BestFirstRuleType goCtx st (r :: rest) = (st1, some e) := by
  simp [runnerCore, h, ChainRuleType, BestFirstRuleType]

theorem runnerCore_chain_single_aux {C : Type} (goCtx : Option Bool)
    (st : Store C) (r : Rule C) :
    runnerCore ChainRuleType goCtx st [r] =
      ((fire goCtx st r).1, (fire goCtx st r).2.2) := by
  cases h : fire goCtx st r with
  | mk a bc => simp [runnerCore, h, ChainRuleType]

theorem findNilIdx_append_aux {C : Type} (pre post : List (Option (Rule C)))
    (n : Nat) (h : ∀ x ∈ pre, x.isSome) :
    findNilIdx (pre ++ none :: post) n = some (n + pre.length) := by
  induction pre generalizing n with
  | nil => simp [findNilIdx]
  | cons x rest ih =>
    cases x with
    | none => simpa using h none (by simp)
    | some r =>
      have hr : ∀ y ∈ rest, y.isSome := fun y hy => h y (by simp [hy])
      simp only [List.cons_append, findNilIdx, List.append_eq, List.length_cons,
        ih (n + 1) hr, Option.some.injEq]
      omega

/-! ## Claim theorems -/

/-- C6: `RuleRunner` validates before firing anything: a nil store returns
`ErrNilRuleContext` whatever the strategy, token and rules; a nil node
(here: first nil at index `pre.length`) returns the wrapped nil-rule
error identifying that index, with the store untouched and no node fired
(the result does not depend on any node); and a non-nil store with an
empty node sequence is a no-op success. -/
theorem runner_validation (C : Type) :
    (∀ (rt : RuleType) (goCtx : Option Bool) (rules : List (Option (Rule C))),
      RuleRunnerGo rt goCtx none rules = (none, some Err.nilRuleContext))
    ∧ (∀ (rt : RuleType) (goCtx : Option Bool) (st : Store C)
        (pre post : List (Option (Rule C))),
        (∀ x ∈ pre, x.isSome) →
        RuleRunnerGo rt goCtx (some st) (pre ++ none :: post)
          = (some st, some (Err.nilRuleAt pre.length)))
    ∧ (∀ (rt : RuleType) (goCtx : Option Bool) (st : Store C),
        RuleRunnerGo rt goCtx (some st) [] = (some st, none)) := by
  refine ⟨fun rt goCtx rules => rfl, fun rt goCtx st pre post h => ?_,
    fun rt goCtx st => rfl⟩
  have hn : findNilIdx (pre ++ none :: post) 0 = some pre.length := by
    simpa using findNilIdx_append_aux pre post 0 h
  have hne : (pre ++ none :: post).length ≠ 0 := by simp
  simp [RuleRunnerGo, hn, hne]

/-- C6 witness: the nil-node branch at a concrete input, index 1. -/
theorem runner_validation_witness :
    RuleRunnerGo (C := Nat) ChainRuleType none (some [])
        [some (Rule.mk ChainRuleType [] none none none none), none]
      = (some [], some (Err.nilRuleAt 1)) := by
  have h := (runner_validation Nat).2.1 ChainRuleType none []
    [some (Rule.mk ChainRuleType [] none none none none)] [] (by simp)
  simpa using h

/-- C9: the nil-store check precedes the empty-sequence no-op: with a nil
store and zero nodes, `RuleRunner` returns `ErrNilRuleContext`, not
success, for every strategy and token. -/
theorem runner_nilstore_precedence (C : Type) (rt : RuleType)
    (goCtx : Option Bool) :
    RuleRunnerGo (C := C) rt goCtx none [] = (none, some Err.nilRuleContext) := rfl

/-- C4: with an already-signaled token, `fire` returns the cancellation
error immediately with the store untouched, for every rule whatever its
hooks, children and tag (so zero hooks of the node or of any descendant
are invoked); consequently a `Chain` run on its single root and a
`BestFirst` run on any non-empty node sequence return the cancellation
error with the store untouched. -/
theorem canceled_token_fails_fast (C : Type) :
    (∀ (st : Store C) (r : Rule C),
      fire (some true) st r = (st, false, some Err.canceled))
    ∧ (∀ (st : Store C) (r : Rule C),
      RuleRunnerGo ChainRuleType (some true) (some st) [some r]
        = (some st, some Err.canceled))
    ∧ (∀ (st : Store C) (r : Rule C) (rs : List (Rule C)),
      RuleRunnerGo BestFirstRuleType (some true) (some st) (some r :: rs.map some)
        = (some st, some Err.canceled)) := by
  refine ⟨fun st r => fire_canceled_aux st r, fun st r => ?_, fun st r rs => ?_⟩
  · have h := runnerGo_cons_aux ChainRuleType (some true) st r []
    rw [runnerCore_chain_single_aux, fire_canceled_aux] at h
    simpa using h
  · have h := runnerGo_cons_aux BestFirstRuleType (some true) st r rs
    rw [runnerCore_bf_err_aux (some true) st st r rs false Err.canceled
      (fire_canceled_aux st r)] at h
    simpa using h

/-- C10: for every strategy tag other than the two declared constants,
the runner returns `ErrInvalidRuleType` without firing any node (the
result does not depend on the supplied nodes and leaves the store
untouched), and `fire` on a node carrying such a tag, under an
unsignaled token, returns `ErrInvalidRuleType` with the store untouched
and none of its hooks invoked (the result does not depend on the node's
hooks or children). -/
theorem invalid_ruletype_rejected (C : Type) :
    (∀ (rt : RuleType), rt ≠ ChainRuleType → rt ≠ BestFirstRuleType →
      ∀ (goCtx : Option Bool) (st : Store C) (r : Rule C) (rs : List (Rule C)),
        RuleRunnerGo rt goCtx (some st) (some r :: rs.map some)
          = (some st, some Err.invalidRuleType))
    ∧ (∀ (rt : RuleType), rt ≠ ChainRuleType → rt ≠ BestFirstRuleType →
      ∀ (goCtx : Option Bool), goCtx ≠ some true →
      ∀ (st : Store C) (r : Rule C), r.ruleType = rt →
        fire goCtx st r = (st, false, some Err.invalidRuleType)) := by
  constructor
  · intro rt h0 h1 goCtx st r rs
    have h := runnerGo_cons_aux rt goCtx st r rs
    rw [show runnerCore rt goCtx st (r :: rs) = (st, some Err.invalidRuleType) by
      simp [runnerCore, h0, h1]] at h
    simpa using h
  · intro rt h0 h1 goCtx hg st r hrt
    cases r with
    | mk t cs oe ope oex opo =>
      simp only [Rule.ruleType] at hrt
      subst hrt
      exact fire_invalid_aux goCtx hg st _ cs oe ope oex opo h0 h1

/-- C10 witness: the tag 2 at concrete inputs. -/
theorem invalid_ruletype_witness :
    RuleRunnerGo (C := Nat) 2 none (some [])
        [some (Rule.mk 2 [] none none none none)]
      = (some [], some Err.invalidRuleType)
    ∧ fire (C := Nat) none [] (Rule.mk 2 [] none none none none)
      = ([], false, some Err.invalidRuleType) :=
  ⟨(invalid_ruletype_rejected Nat).1 2 (by decide) (by decide) none []
      (Rule.mk 2 [] none none none none) [],
   (invalid_ruletype_rejected Nat).2 2 (by decide) (by decide) none
      (by decide) [] (Rule.mk 2 [] none none none none) rfl⟩

/-- C5: a `Chain`-tagged node owns at most one child: `AddChildren` on a
chain node whose current children plus the supplied rules would exceed
one returns `ErrChainRuleMultipleChildren` with the node unchanged;
`AddChildren` given any nil rule returns an error with the node unchanged
(no partial append); the at-most-one-child invariant is preserved by
`AddChildren`; and a `Chain` run given two or more root nodes returns
`ErrChainRuleMultipleRules` with the store untouched and no node fired
(the result does not depend on the nodes). -/
theorem chain_arity_invariant (C : Type) :
    (∀ (r : Rule C) (rules : List (Option (Rule C))),
       r.ruleType = ChainRuleType → r.children.length + rules.length > 1 →
       AddChildren r rules = (r, some Err.chainRuleMultipleChildren))
    ∧ (∀ (r : Rule C) (rules : List (Option (Rule C))),
       (∃ x ∈ rules, x = none) →
       (AddChildren r rules).1 = r ∧ (AddChildren r rules).2 ≠ none)
    ∧ (∀ (r : Rule C) (rules : List (Option (Rule C))),
       r.ruleType = ChainRuleType → r.children.length ≤ 1 →
       ((AddChildren r rules).1).children.length ≤ 1)
    ∧ (∀ (goCtx : Option Bool) (st : Store C) (r1 r2 : Rule C)
        (rs : List (Rule C)),
       RuleRunnerGo ChainRuleType goCtx (some st)
           (some r1 :: some r2 :: rs.map some)
         = (some st, some Err.chainRuleMultipleRules)) := by
  refine ⟨?_, ?_, ?_, ?_⟩
  · intro r rules hrt hlen
    cases r with
    | mk t cs oe ope oex opo =>
      simp only [Rule.ruleType] at hrt
      simp only [Rule.children] at hlen
      simp [AddChildren, hrt, hlen]
  · intro r rules hex
    cases r with
    | mk t cs oe ope oex opo =>
      have hany : rules.any Option.isNone = true := by
        obtain ⟨x, hx, hxn⟩ := hex
        subst hxn
        simp [List.any_eq_true]
        exact hx
      by_cases hcond : t = ChainRuleType ∧ cs.length + rules.length > 1
      · simp [AddChildren, hcond]
      · simp [AddChildren, hcond, hany]
  · intro r rules hrt hle
    cases r with
    | mk t cs oe ope oex opo =>
      simp only [Rule.ruleType] at hrt
      simp only [Rule.children] at hle
      by_cases hcond : t = ChainRuleType ∧ cs.length + rules.length > 1
      · simp [AddChildren, hcond, Rule.children, hle]
      · by_cases hany : rules.any Option.isNone
        · simp [AddChildren, hcond, hany, Rule.children, hle]
        · have hlen : cs.length + rules.length ≤ 1 := by
            rcases not_and_or.mp hcond with h | h
            · exact absurd hrt h
            · omega
          have hfm : (rules.filterMap id).length ≤ rules.length :=
            List.length_filterMap_le id rules
          simp only [AddChildren, if_neg hcond, if_neg hany, Rule.children]
          simp only [List.length_append]
          omega
  · intro goCtx st r1 r2 rs
    have h := runnerGo_cons_aux ChainRuleType goCtx st r1 (r2 :: rs)
    rw [show runnerCore ChainRuleType goCtx st (r1 :: r2 :: rs)
        = (st, some Err.chainRuleMultipleRules) by
      simp [runnerCore, ChainRuleType]] at h
    simpa using h

/-- C5 witness: concrete instances of each hypothesis-bearing conjunct. -/
theorem chain_arity_witness :
    AddChildren (C := Nat) (Rule.mk ChainRuleType [] none none none none)
        [some (Rule.mk ChainRuleType [] none none none none),
         some (Rule.mk ChainRuleType [] none none none none)]
      = (Rule.mk ChainRuleType [] none none none none,
         some Err.chainRuleMultipleChildren)
    ∧ (AddChildren (C := Nat) (Rule.mk BestFirstRuleType [] none none none none)
        [none]).1 = Rule.mk BestFirstRuleType [] none none none none
    ∧ ((AddChildren (C := Nat) (Rule.mk ChainRuleType [] none none none none)
        [some (Rule.mk ChainRuleType [] none none none none)]).1).children.length ≤ 1 :=
  ⟨(chain_arity_invariant Nat).1 (Rule.mk ChainRuleType [] none none none none)
      [some (Rule.mk ChainRuleType [] none none none none),
       some (Rule.mk ChainRuleType [] none none none none)] rfl (by simp [Rule.children]),
   ((chain_arity_invariant Nat).2.1 (Rule.mk BestFirstRuleType [] none none none none)
      [none] ⟨none, by simp⟩).1,
   (chain_arity_invariant Nat).2.2.1 (Rule.mk ChainRuleType [] none none none none)
      [some (Rule.mk ChainRuleType [] none none none none)] rfl
      (by simp [Rule.children])⟩

theorem runnerCore_bf_all_skip_aux {C : Type} (goCtx : Option Bool)
    (hg : goCtx ≠ some true) (rs : List (Rule C))
    (h : ∀ r ∈ rs, r.ruleType = BestFirstRuleType ∧
      ∀ s : Store C, ∃ s2, evalStep r.onEval s = (s2, ⟨false, none⟩)) :
    ∀ st : Store C, (runnerCore BestFirstRuleType goCtx st rs).2 = none := by
  induction rs with
  | nil => intro st; simp [runnerCore]
  | cons r rest ih =>
    intro st
    obtain ⟨hrt, hev⟩ := h r (by simp)
    obtain ⟨s2, hs2⟩ := hev st
    cases r with
    | mk t cs oe ope oex opo =>
      simp only [Rule.ruleType] at hrt
      simp only [Rule.onEval] at hs2
      subst hrt
      rw [runnerCore_bf_skip_aux goCtx st s2 _ rest
        (fire_skip_aux goCtx hg st s2 _ cs oe ope oex opo (Or.inr rfl) hs2)]
      exact ih (fun x hx => h x (by simp [hx])) s2

/-- C2: a node whose eval hook returns `ShouldExecute = false` with no
error is skipped: `fire` returns the store as eval left it, the continue
signal, and no error — for every rule with that eval behaviour, whatever
its other hooks and children (so pre/execute/post are not invoked and no
child is fired), under both strategies; and a `Chain` run whose root's
eval returns false returns no error. -/
theorem eval_false_skips (C : Type) (goCtx : Option Bool)
    (hg : goCtx ≠ some true) :
    (∀ (r : Rule C) (st st1 : Store C),
       (r.ruleType = ChainRuleType ∨ r.ruleType = BestFirstRuleType) →
       evalStep r.onEval st = (st1, ⟨false, none⟩) →
       fire goCtx st r = (st1, true, none))
    ∧ (∀ (r : Rule C) (st st1 : Store C),
       r.ruleType = ChainRuleType →
       evalStep r.onEval st = (st1, ⟨false, none⟩) →
       RuleRunnerGo ChainRuleType goCtx (some st) [some r] = (some st1, none)) := by
  constructor
  · intro r st st1 hrt he
    cases r with
    | mk t cs oe ope oex opo =>
      simp only [Rule.ruleType] at hrt
      simp only [Rule.onEval] at he
      exact fire_skip_aux goCtx hg st st1 t cs oe ope oex opo hrt he
  · intro r st st1 hrt he
    have hf : fire goCtx st r = (st1, true, none) := by
      cases r with
      | mk t cs oe ope oex opo =>
        simp only [Rule.ruleType] at hrt
        simp only [Rule.onEval] at he
        exact fire_skip_aux goCtx hg st st1 t cs oe ope oex opo (Or.inl hrt) he
    have h := runnerGo_cons_aux ChainRuleType goCtx st r []
    rw [runnerCore_chain_single_aux, hf] at h
    simpa using h

/-- C2 witness: a chain root whose eval hook returns false. -/
theorem eval_false_skips_witness :
    RuleRunnerGo (C := Nat) ChainRuleType none (some [("seed", 1)])
        [some (Rule.mk ChainRuleType
          [Rule.mk ChainRuleType [] none none none none]
          (some fun s => (s, ⟨false, none⟩)) none none none)]
      = (some [("seed", 1)], none) :=
  (eval_false_skips Nat none (by decide)).2
    (Rule.mk ChainRuleType [Rule.mk ChainRuleType [] none none none none]
      (some fun s => (s, ⟨false, none⟩)) none none none)
    [("seed", 1)] [("seed", 1)] rfl rfl

/-- C3: hook defaults, order and error propagation.  The nil hooks
default to no-ops; an eval error aborts the node before any execution
hook, and the node's `fire` returns that very error; an error from
`onPreExecute`, `onExecute` or `onPostExecute` aborts at that point
(later hooks and children do not run — the result does not depend on
them) returning that very error; when all three succeed they are invoked
exactly once each, in the order pre, execute, post (each on the store the
previous one produced), then the children run; and a `Chain` run returns
exactly the error of its root's `fire`. -/
theorem hook_order_and_errors (C : Type) (goCtx : Option Bool)
    (hg : goCtx ≠ some true) :
    (∀ st : Store C, evalStep (C := C) none st = (st, ⟨true, none⟩))
    ∧ (∀ st : Store C, execStep (C := C) none st = (st, ⟨none⟩))
    ∧ (∀ (r : Rule C) (st st1 : Store C) (b : Bool) (e : Err),
       (r.ruleType = ChainRuleType ∨ r.ruleType = BestFirstRuleType) →
       evalStep r.onEval st = (st1, ⟨b, some e⟩) →
       fire goCtx st r = (st1, false, some e))
    ∧ (∀ (r : Rule C) (st st1 st2 : Store C) (e : Err),
       (r.ruleType = ChainRuleType ∨ r.ruleType = BestFirstRuleType) →
       evalStep r.onEval st = (st1, ⟨true, none⟩) →
       execStep r.onPre st1 = (st2, ⟨some e⟩) →
       fire goCtx st r = (st2, false, some e))
    ∧ (∀ (r : Rule C) (st st1 st2 st3 : Store C) (e : Err),
       (r.ruleType = ChainRuleType ∨ r.ruleType = BestFirstRuleType) →
       evalStep r.onEval st = (st1, ⟨true, none⟩) →
       execStep r.onPre st1 = (st2, ⟨none⟩) →
       execStep r.onExec st2 = (st3, ⟨some e⟩) →
       fire goCtx st r = (st3, false, some e))
    ∧ (∀ (r : Rule C) (st st1 st2 st3 st4 : Store C) (e : Err),
       (r.ruleType = ChainRuleType ∨ r.ruleType = BestFirstRuleType) →
       evalStep r.onEval st = (st1, ⟨true, none⟩) →
       execStep r.onPre st1 = (st2, ⟨none⟩) →
       execStep r.onExec st2 = (st3, ⟨none⟩) →
       execStep r.onPost st3 = (st4, ⟨some e⟩) →
       fire goCtx st r = (st4, false, some e))
    ∧ (∀ (r : Rule C) (st st1 st2 st3 st4 : Store C),
       r.ruleType = ChainRuleType →
       evalStep r.onEval st = (st1, ⟨true, none⟩) →
       execStep r.onPre st1 = (st2, ⟨none⟩) →
       execStep r.onExec st2 = (st3, ⟨none⟩) →
       execStep r.onPost st3 = (st4, ⟨none⟩) →
       fire goCtx st r =
         ((runnerCore ChainRuleType goCtx st4 r.children).1,
          (runnerCore ChainRuleType goCtx st4 r.children).2.isNone,
          (runnerCore ChainRuleType goCtx st4 r.children).2))
    ∧ (∀ (r : Rule C) (st st1 st2 st3 st4 : Store C),
       r.ruleType = BestFirstRuleType →
       evalStep r.onEval st = (st1, ⟨true, none⟩) →
       execStep r.onPre st1 = (st2, ⟨none⟩) →
       execStep r.onExec st2 = (st3, ⟨none⟩) →
       execStep r.onPost st3 = (st4, ⟨none⟩) →
       fire goCtx st r =
         ((runnerCore BestFirstRuleType goCtx st4 r.children).1, false,
          (runnerCore BestFirstRuleType goCtx st4 r.children).2))
    ∧ (∀ (r : Rule C) (st : Store C),
       (RuleRunnerGo ChainRuleType goCtx (some st) [some r]).2
         = (fire goCtx st r).2.2) := by
  refine ⟨fun st => rfl, fun st => rfl, ?_, ?_, ?_, ?_, ?_, ?_, ?_⟩
  · intro r st st1 b e hrt he
    cases r with
    | mk t cs oe ope oex opo =>
      simp only [Rule.ruleType] at hrt
      simp only [Rule.onEval] at he
      exact fire_evalErr_aux goCtx hg st st1 t cs oe ope oex opo b e hrt he
  · intro r st st1 st2 e hrt he hp
    cases r with
    | mk t cs oe ope oex opo =>
      simp only [Rule.ruleType] at hrt
      simp only [Rule.onEval] at he
      simp only [Rule.onPre] at hp
      exact fire_preErr_aux goCtx hg st st1 st2 t cs oe ope oex opo e hrt he hp
  · intro r st st1 st2 st3 e hrt he hp hx
    cases r with
    | mk t cs oe ope oex opo =>
      simp only [Rule.ruleType] at hrt
      simp only [Rule.onEval] at he
      simp only [Rule.onPre] at hp
      simp only [Rule.onExec] at hx
      exact fire_execErr_aux goCtx hg st st1 st2 st3 t cs oe ope oex opo e hrt
        he hp hx
  · intro r st st1 st2 st3 st4 e hrt he hp hx hq
    cases r with
    | mk t cs oe ope oex opo =>
      simp only [Rule.ruleType] at hrt
      simp only [Rule.onEval] at he
      simp only [Rule.onPre] at hp
      simp only [Rule.onExec] at hx
      simp only [Rule.onPost] at hq
      exact fire_postErr_aux goCtx hg st st1 st2 st3 st4 t cs oe ope oex opo e
        hrt he hp hx hq
  · intro r st st1 st2 st3 st4 hrt he hp hx hq
    cases r with
    | mk t cs oe ope oex opo =>
      simp only [Rule.ruleType] at hrt
      simp only [Rule.onEval] at he
      simp only [Rule.onPre] at hp
      simp only [Rule.onExec] at hx
      simp only [Rule.onPost] at hq
      subst hrt
      simpa [Rule.children] using
        fire_exec_chain_aux goCtx hg st st1 st2 st3 st4 cs oe ope oex opo
          he hp hx hq
  · intro r st st1 st2 st3 st4 hrt he hp hx hq
    cases r with
    | mk t cs oe ope oex opo =>
      simp only [Rule.ruleType] at hrt
      simp only [Rule.onEval] at he
      simp only [Rule.onPre] at hp
      simp only [Rule.onExec] at hx
      simp only [Rule.onPost] at hq
      subst hrt
      simpa [Rule.children] using
        fire_exec_bf_aux goCtx hg st st1 st2 st3 st4 cs oe ope oex opo
          he hp hx hq
  · intro r st
    have h := runnerGo_cons_aux ChainRuleType goCtx st r []
    rw [runnerCore_chain_single_aux] at h
    simp only [List.map_nil] at h
    rw [h]

/-- C3 witness: a chain node whose pre-execute hook fails with `user 7`,
and one whose execute hook fails with `user 9` after a store-writing
pre-execute hook. -/
theorem hook_order_witness :
    fire (C := Nat) none []
        (Rule.mk ChainRuleType [] none
          (some fun s => (s, ⟨some (Err.user 7)⟩)) none none)
      = ([], false, some (Err.user 7))
    ∧ fire (C := Nat) none []
        (Rule.mk ChainRuleType [] none
          (some fun s => (ctxSet s "pre" 1, ⟨none⟩))
          (some fun s => (s, ⟨some (Err.user 9)⟩)) none)
      = ([("pre", 1)], false, some (Err.user 9)) :=
  ⟨(hook_order_and_errors Nat none (by decide)).2.2.2.1
      (Rule.mk ChainRuleType [] none
        (some fun s => (s, ⟨some (Err.user 7)⟩)) none none)
      [] [] [] (Err.user 7) (Or.inl rfl) rfl rfl,
   (hook_order_and_errors Nat none (by decide)).2.2.2.2.1
      (Rule.mk ChainRuleType [] none
        (some fun s => (ctxSet s "pre" 1, ⟨none⟩))
        (some fun s => (s, ⟨some (Err.user 9)⟩)) none)
      [] [] [("pre", 1)] [("pre", 1)] (Err.user 9) (Or.inl rfl) rfl rfl rfl⟩

/-- C1: under `BestFirst`, the supplied nodes are tried in the given
order: a node whose eval returns false (no error) is skipped and the run
continues with the remaining siblings on the store eval left; the first
node whose fire executes successfully (eval true, hooks error-free)
stops the run with no error, and the result does not depend on the later
siblings at all (their hooks are never invoked); if every node is
skipped, the run returns no error. -/
theorem bestFirst_first_match (C : Type) (goCtx : Option Bool)
    (hg : goCtx ≠ some true) :
    (∀ (r : Rule C) (rs : List (Rule C)) (st st1 : Store C),
       r.ruleType = BestFirstRuleType →
       evalStep r.onEval st = (st1, ⟨false, none⟩) →
       RuleRunnerGo BestFirstRuleType goCtx (some st) (some r :: rs.map some)
         = RuleRunnerGo BestFirstRuleType goCtx (some st1) (rs.map some))
    ∧ (∀ (r : Rule C) (rs : List (Rule C)) (st st1 : Store C),
       r.ruleType = BestFirstRuleType →
       fire goCtx st r = (st1, false, none) →
       RuleRunnerGo BestFirstRuleType goCtx (some st) (some r :: rs.map some)
         = (some st1, none))
    ∧ (∀ (rs : List (Rule C)) (st : Store C),
       (∀ r ∈ rs, r.ruleType = BestFirstRuleType ∧
         ∀ s : Store C, ∃ s2, evalStep r.onEval s = (s2, ⟨false, none⟩)) →
       (RuleRunnerGo BestFirstRuleType goCtx (some st) (rs.map some)).2 = none) := by
  refine ⟨?_, ?_, ?_⟩
  · intro r rs st st1 hrt he
    have hf : fire goCtx st r = (st1, true, none) := by
      cases r with
      | mk t cs oe ope oex opo =>
        simp only [Rule.ruleType] at hrt
        simp only [Rule.onEval] at he
        exact fire_skip_aux goCtx hg st st1 t cs oe ope oex opo (Or.inr hrt) he
    have h := runnerGo_cons_aux BestFirstRuleType goCtx st r rs
    rw [runnerCore_bf_skip_aux goCtx st st1 r rs hf] at h
    cases rs with
    | nil => simpa [runnerCore, RuleRunnerGo] using h
    | cons r2 rest =>
      simp only [List.map_cons] at h ⊢
      rw [h, runnerGo_cons_aux BestFirstRuleType goCtx st1 r2 rest]
  · intro r rs st st1 hrt hf
    have h := runnerGo_cons_aux BestFirstRuleType goCtx st r rs
    rw [runnerCore_bf_stop_aux goCtx st st1 r rs hf] at h
    simpa using h
  · intro rs st h
    cases rs with
    | nil => simp [RuleRunnerGo]
    | cons r rest =>
      simp only [List.map_cons]
      rw [runnerGo_cons_aux BestFirstRuleType goCtx st r rest]
      exact runnerCore_bf_all_skip_aux goCtx hg (r :: rest) h st

/-- C1 witness: two best-first siblings, the first skipping, the second
executing; and the executing node followed by a further sibling, which
stays untouched. -/
theorem bestFirst_first_match_witness :
    RuleRunnerGo (C := Nat) BestFirstRuleType none (some [])
        [some (Rule.mk BestFirstRuleType []
            (some fun s => (s, ⟨true, none⟩)) none
            (some fun s => (ctxSet s "winner" 2, ⟨none⟩)) none),
         some (Rule.mk BestFirstRuleType []
            (some fun s => (ctxSet s "later" 3, ⟨true, none⟩)) none none none)]
      = (some [("winner", 2)], none) := by
  have hf : fire (C := Nat) none []
      (Rule.mk BestFirstRuleType []
        (some fun s => (s, ⟨true, none⟩)) none
        (some fun s => (ctxSet s "winner" 2, ⟨none⟩)) none)
      = ([("winner", 2)], false, none) := by
    simp [fire, evalStep, execStep, runnerCore, ctxSet, ctxDelete,
      ChainRuleType, BestFirstRuleType]
  exact (bestFirst_first_match Nat none (by decide)).2.1
    (Rule.mk BestFirstRuleType []
      (some fun s => (s, ⟨true, none⟩)) none
      (some fun s => (ctxSet s "winner" 2, ⟨none⟩)) none)
    [Rule.mk BestFirstRuleType []
      (some fun s => (ctxSet s "later" 3, ⟨true, none⟩)) none none none]
    [] [("winner", 2)] rfl hf

/-- C7: store algebra.  `Set` upserts: after `Set(k, v)`, `Get(k)` finds
`v` whether or not `k` was present, and every other key is unchanged;
`Delete(k)` removes `k`, leaves every other key unchanged, and is a no-op
on an absent key; `MustGet(k)` returns exactly what `Get(k)` found when
`k` is present and panics exactly when it is absent; and presence of an
entry (of any value, including the zero value) is distinguishable from
absence through the found flag. -/
theorem store_semantics (C : Type) [Inhabited C] :
    (∀ (s : Store C) (k : String) (v : C), ctxGet (ctxSet s k v) k = some v)
    ∧ (∀ (s : Store C) (k k2 : String) (v : C), k2 ≠ k →
        ctxGet (ctxSet s k v) k2 = ctxGet s k2)
    ∧ (∀ (s : Store C) (k : String), ctxGet (ctxDelete s k) k = none)
    ∧ (∀ (s : Store C) (k k2 : String), k2 ≠ k →
        ctxGet (ctxDelete s k) k2 = ctxGet s k2)
    ∧ (∀ (s : Store C) (k : String), ctxGet s k = none → ctxDelete s k = s)
    ∧ (∀ (s : Store C) (k : String) (v : C), ctxGet s k = some v →
        mustGet s k = Except.ok v)
    ∧ (∀ (s : Store C) (k : String), ctxGet s k = none →
        mustGet s k = Except.error ("key " ++ k ++ " not found in rule context"))
    ∧ (∀ (s : Store C) (k : String) (v : C),
        ctxGetPair (ctxSet s k v) k = (v, true)
        ∧ ctxExists (ctxSet s k v) k = true)
    ∧ (∀ (s : Store C) (k : String), ctxGet s k = none →
        ctxGetPair s k = ((default : C), false) ∧ ctxExists s k = false) := by
  have hset_same : ∀ (s : Store C) (k : String) (v : C),
      ctxGet (ctxSet s k v) k = some v := by
    intro s k v
    rw [ctxSet, ctxGet_append, ctxGet_delete_self]
    simp [ctxGet]
  have hget_none : ∀ (s : Store C) (k k2 : String) (v : C), k2 ≠ k →
      ctxGet (ctxSet s k v) k2 = ctxGet s k2 := by
    intro s k k2 v h
    rw [ctxSet, ctxGet_append, ctxGet_delete_other s k k2 h]
    simp [ctxGet, Ne.symm h]
  refine ⟨hset_same, hget_none, fun s k => ctxGet_delete_self s k,
    fun s k k2 h => ctxGet_delete_other s k k2 h,
    fun s k h => ctxDelete_absent s k h, ?_, ?_, ?_, ?_⟩
  · intro s k v h
    simp [mustGet, h]
  · intro s k h
    simp [mustGet, h]
  · intro s k v
    constructor
    · simp [ctxGetPair, hset_same s k v]
    · simp [ctxExists, hset_same s k v]
  · intro s k h
    constructor
    · simp [ctxGetPair, h]
    · simp [ctxExists, h]

/-- C7 witness: upsert over an existing zero-valued entry, delete of an
absent key, and a fatal `MustGet` on an absent key, at concrete inputs. -/
theorem store_semantics_witness :
    ctxGet (ctxSet ([("a", 0)] : Store Nat) "a" 5) "a" = some 5
    ∧ ctxGet (ctxSet ([("a", 0)] : Store Nat) "a" 5) "b" = ctxGet [("a", 0)] "b"
    ∧ ctxDelete ([("a", 0)] : Store Nat) "b" = [("a", 0)]
    ∧ mustGet ([("a", 0)] : Store Nat) "a" = Except.ok 0
    ∧ mustGet ([] : Store Nat) "a"
        = Except.error ("key " ++ "a" ++ " not found in rule context")
    ∧ ctxGetPair (ctxSet ([] : Store Nat) "a" 0) "a" = (0, true)
    ∧ ctxGetPair ([] : Store Nat) "a" = (0, false) :=
  ⟨(store_semantics Nat).1 [("a", 0)] "a" 5,
   (store_semantics Nat).2.1 [("a", 0)] "a" "b" 5 (by decide),
   (store_semantics Nat).2.2.2.2.1 [("a", 0)] "b" (by decide),
   (store_semantics Nat).2.2.2.2.2.1 [("a", 0)] "a" 0 (by decide),
   (store_semantics Nat).2.2.2.2.2.2.1 [] "a" rfl,
   ((store_semantics Nat).2.2.2.2.2.2.2.1 [] "a" 0).1,
   ((store_semantics Nat).2.2.2.2.2.2.2.2 [] "a" rfl).1⟩

/-- C8: the engine is deterministic: with pure hooks (hooks are functions
in this embedding, matching the claim's premise of deterministic hooks),
two runner invocations with the same strategy and token state, the same
node sequence, and stores with equal initial contents return equal final
store contents and equal errors. -/
theorem runner_deterministic (C : Type) (rt : RuleType) (goCtx : Option Bool)
    (st1 st2 : Store C) (rules1 rules2 : List (Option (Rule C)))
    (hst : st1 = st2) (hrules : rules1 = rules2) :
    RuleRunnerGo rt goCtx (some st1) rules1
      = RuleRunnerGo rt goCtx (some st2) rules2 := by
  subst hst
  subst hrules
  rfl

/-- C8 witness: two runs of a store-writing chain root from equal seeded
stores agree. -/
theorem runner_deterministic_witness :
    RuleRunnerGo (C := Nat) ChainRuleType none (some [("seed", 1)])
        [some (Rule.mk ChainRuleType [] none none
          (some fun s => (ctxSet s "out" 2, ⟨none⟩)) none)]
      = RuleRunnerGo (C := Nat) ChainRuleType none (some [("seed", 1)])
        [some (Rule.mk ChainRuleType [] none none
          (some fun s => (ctxSet s "out" 2, ⟨none⟩)) none)] :=
  runner_deterministic Nat ChainRuleType none [("seed", 1)] [("seed", 1)]
    [some (Rule.mk ChainRuleType [] none none
      (some fun s => (ctxSet s "out" 2, ⟨none⟩)) none)]
    [some (Rule.mk ChainRuleType [] none none
      (some fun s => (ctxSet s "out" 2, ⟨none⟩)) none)]
    rfl rfl

end Dredd
